import Mathlib

/-!
Verification of the `adaptive-health-ai` repository: a shallow embedding of
the dependency-pinning utility `pin_env_versions.py` and of the data loader
`src/read_data.py`, together with theorems settling the specification's
claims about them.

Python strings are modelled as Lean `String` (a structure over `List Char`),
and the ASCII fragment of Python's `str.strip` / `str.lower` is embedded
explicitly; the scripts only ever feed them package names and manifest
entries, for which this fragment is exact.
-/

namespace AdaptiveHealth

/-- Whitespace characters removed by Python `str.strip()` (ASCII fragment:
space, tab, newline, carriage return, vertical tab, form feed). -/
def pySpace (c : Char) : Bool :=
  c = ' ' || c = '\t' || c = '\n' || c = '\r' || c = '\x0b' || c = '\x0c'

/-- Python `str.strip()`: drop leading and trailing whitespace. -/
def pyStrip (l : List Char) : List Char :=
  ((l.dropWhile pySpace).reverse.dropWhile pySpace).reverse

/-- Python `str.lower()` on a single character (ASCII fragment: `A`-`Z`,
code points 65-90, map to code point + 32). -/
def pyToLower (c : Char) : Char :=
  if 65 ≤ c.toNat ∧ c.toNat ≤ 90 then Char.ofNat (c.toNat + 32) else c

/-- Python `str.lower()` (ASCII fragment). -/
def pyLower (l : List Char) : List Char := l.map pyToLower

/-- Python `str.lower()` packaged on `String`. -/
def pyLowerS (s : String) : String := String.mk (pyLower s.data)

/-- Python `str.strip()` packaged on `String`. -/
def pyStripS (s : String) : String := String.mk (pyStrip s.data)

/-- Characters of the separator class `[-_.]` used by `normalize_name`. -/
def isSepChar (c : Char) : Bool := c = '-' || c = '_' || c = '.'

/-- Embedding of `re.sub(r"[-_.]+", "-", ·)`: every maximal run of separator
characters is replaced by a single dash. -/
def collapseSep : List Char → List Char
  | [] => []
  | [c] => if isSepChar c then ['-'] else [c]
  | c :: d :: cs =>
    if isSepChar c then
      (if isSepChar d then collapseSep (d :: cs) else '-' :: collapseSep (d :: cs))
    else c :: collapseSep (d :: cs)

/-- Embedding of `normalize_name` (pin_env_versions.py, lines 145-147):
`re.sub(r"[-_.]+", "-", name.strip().lower())`. -/
def normalize_name (name : String) : String :=
  String.mk (collapseSep (pyLower (pyStrip name.data)))

/-- Embedding of Python's substring test `needle in hay`. -/
def containsSub (needle : List Char) : List Char → Bool
  | [] => needle.isPrefixOf []
  | c :: t => needle.isPrefixOf (c :: t) || containsSub needle t

/-- Embedding of `s.split(sep, 1)` when `sep` occurs in `s`: the text before
the first occurrence of `sep` and the text after it. -/
def splitOnce (sep : List Char) : List Char → Option (List Char × List Char)
  | [] => if sep.isPrefixOf ([] : List Char) then some ([], []) else none
  | c :: t =>
    if sep.isPrefixOf (c :: t) then some ([], (c :: t).drop sep.length)
    else
      match splitOnce sep t with
      | some (a, b) => some (c :: a, b)
      | none => none

/-- Characters of the name-token class `[A-Za-z0-9_.-]`. -/
def isNameChar (c : Char) : Bool :=
  c.isUpper || c.isLower || c.isDigit || c = '_' || c = '.' || c = '-'

/-- Embedding of `parse_conda_dep` (pin_env_versions.py, lines 150-171):
strip, split an optional `channel::` text off the front, then take the
leading name token `[A-Za-z0-9_.-]+`; when that token is empty the rest of
the text itself is returned as the name. -/
def parse_conda_dep (dep : String) : Option String × String :=
  match splitOnce "::".data (pyStrip dep.data) with
  | some (c, rest) =>
    (some (String.mk c),
      if rest.takeWhile isNameChar = [] then String.mk rest
      else String.mk (rest.takeWhile isNameChar))
  | none =>
    (none,
      if (pyStrip dep.data).takeWhile isNameChar = [] then String.mk (pyStrip dep.data)
      else String.mk ((pyStrip dep.data).takeWhile isNameChar))

/-- Association-list model of a Python `dict`: lookup by key. -/
def dlookup {α : Type} (m : List (String × α)) (k : String) : Option α :=
  match m with
  | [] => none
  | p :: t => if p.1 = k then some p.2 else dlookup t k

/-- Association-list model of a Python `dict`: `d[k] = v` updates an existing
key in place and appends a new key at the end, preserving insertion order. -/
def dinsert {α : Type} (m : List (String × α)) (k : String) (v : α) : List (String × α) :=
  match m with
  | [] => [(k, v)]
  | p :: t => if p.1 = k then (k, v) :: t else p :: dinsert t k v

/-- YAML values as loaded by `yaml.safe_load`, restricted to the shapes the
pinner inspects: strings, lists, string-keyed mappings, null, booleans,
integers. -/
inductive YVal : Type where
  | str (s : String)
  | list (l : List YVal)
  | ymap (m : List (String × YVal))
  | ynull
  | ybool (b : Bool)
  | yint (n : Int)

/-- Python truthiness of a value that is `None` or a string (`None` and the
empty string are falsy). -/
def optStrTruthy : Option String → Bool
  | none => false
  | some s => if s = "" then false else true

/-- Loop body of `pin_conda_deps` (pin_env_versions.py, lines 194-216) for a
single entry. Non-string entries pass through; otherwise the entry is parsed,
the interpreter is left unpinned when requested, and an entry whose
lowercased name has a truthy installed version is rewritten to
`[channel::]name=version` (the `channel::` text is re-attached only when the
parsed channel is truthy, mirroring `if channel:`). -/
def pinCondaItem (conda_pkgs : List (String × String)) (keep_python_unpinned : Bool)
    (item : YVal) : YVal :=
  match item with
  | .str s =>
    let cn := parse_conda_dep s
    let name_lc := pyLowerS cn.2
    if keep_python_unpinned ∧ name_lc = "python" then
      .str (match cn.1 with
        | some c => if c = "" then "python" else c ++ "::python"
        | none => "python")
    else
      match dlookup conda_pkgs name_lc with
      | none => item
      | some ver =>
        if ver = "" then item
        else
          .str (match cn.1 with
            | some c => if c = "" then cn.2 ++ "=" ++ ver else c ++ "::" ++ (cn.2 ++ "=" ++ ver)
            | none => cn.2 ++ "=" ++ ver)
  | _ => item

/-- Embedding of `pin_conda_deps` (pin_env_versions.py, lines 180-218): the
`for` loop appends one output entry per input entry. -/
def pin_conda_deps (deps : List YVal) (conda_pkgs : List (String × String))
    (keep_python_unpinned : Bool) : List YVal :=
  match deps with
  | [] => []
  | item :: rest =>
    pinCondaItem conda_pkgs keep_python_unpinned item ::
      pin_conda_deps rest conda_pkgs keep_python_unpinned

/-- Does `rest` match the optional-extras group `(\[.*\])?$`: either empty,
or `[` followed by a newline-free interior and a final `]`. (The input has
been stripped, so it cannot end in a newline and `$` is end of string.) -/
def extrasMatch : List Char → Bool
  | [] => true
  | '[' :: more =>
    (match more.getLast? with
     | some ']' => more.dropLast.all (fun c => !(c = '\n'))
     | _ => false)
  | _ => false

/-- Embedding of `extract_pip_name` (pin_env_versions.py, lines 221-243).
The full-match `^([A-Za-z0-9_.-]+)(\[.*\])?$` forces group 1 to be the
maximal leading name token (`[` is not a name character, so no backtracking
is possible); when the full match fails, the fallback `^([A-Za-z0-9_.-]+)`
takes the same leading token, and when even that fails the whole stripped
text is normalized. -/
def extract_pip_name (spec : String) : String × String :=
  let s := pyStrip spec.data
  let tok := s.takeWhile isNameChar
  let rest := s.drop tok.length
  if tok ≠ [] ∧ extrasMatch rest then
    (normalize_name (String.mk tok), String.mk rest)
  else if tok ≠ [] then (normalize_name (String.mk tok), "")
  else (normalize_name (String.mk s), "")

/-- Loop body of `pin_pip_deps` (pin_env_versions.py, lines 257-275) for a
single entry. Non-string entries pass through; a stripped entry containing
`==` or `@` or starting with `-e ` is appended as the stripped text;
otherwise a truthy freeze version is appended after `==` (the conditional
duplicate-guard of the source is kept as written). -/
def pinPipItem (pip_pkgs : List (String × String)) (item : YVal) : YVal :=
  match item with
  | .str s0 =>
    let s := pyStrip s0.data
    if containsSub "==".data s || containsSub "@".data s || "-e ".data.isPrefixOf s then
      .str (String.mk s)
    else
      let be := extract_pip_name (String.mk s)
      match dlookup pip_pkgs be.1 with
      | none => .str (String.mk s)
      | some ver =>
        if ver = "" then .str (String.mk s)
        else if be.2 ≠ "" then
          .str (String.mk s ++ (if containsSub "==".data s then "" else "==") ++ ver)
        else .str (String.mk s ++ "==" ++ ver)
  | _ => item

/-- Embedding of `pin_pip_deps` (pin_env_versions.py, lines 246-277). -/
def pin_pip_deps (pip_list : List YVal) (pip_pkgs : List (String × String)) : List YVal :=
  match pip_list with
  | [] => []
  | item :: rest => pinPipItem pip_pkgs item :: pin_pip_deps rest pip_pkgs

/-- Embedding of Python `str.splitlines()` (ASCII fragment: `\n`, `\r\n` and
`\r` terminate a line; a trailing terminator does not open a final empty
line). `cur` holds the characters of the current line in reverse. -/
def splitlinesAux (cur : List Char) : List Char → List (List Char)
  | [] => if cur = [] then [] else [cur.reverse]
  | '\r' :: '\n' :: t => cur.reverse :: splitlinesAux [] t
  | '\n' :: t => cur.reverse :: splitlinesAux [] t
  | '\r' :: t => cur.reverse :: splitlinesAux [] t
  | c :: t => splitlinesAux (c :: cur) t

/-- Python `str.splitlines()`. -/
def splitlinesPy (l : List Char) : List (List Char) := splitlinesAux [] l

/-- Loop body of `pip_freeze` (pin_env_versions.py, lines 131-142) for one
line of freeze output: strip it, skip blank lines and comments, and record
`normalize_name(name) -> version` for `name==version` lines that are not
editable installs. -/
def freezeStep (m : List (String × String)) (raw : List Char) : List (String × String) :=
  let line := pyStrip raw
  if line = [] || "#".data.isPrefixOf line then m
  else if containsSub "==".data line && !("-e ".data.isPrefixOf line) then
    match splitOnce "==".data line with
    | some (name, ver) => dinsert m (normalize_name (String.mk name)) (String.mk ver)
    | none => m
  else m

/-- The mapping `pip_freeze` builds from the freeze output's lines. -/
def pipFreezeLines (lines : List (List Char)) : List (String × String) :=
  lines.foldl freezeStep []

/-- Embedding of `pip_freeze` (pin_env_versions.py, lines 119-142). The
invocation of `conda run ... pip freeze` is modelled by its result: an
exception or the captured stdout text. Any exception yields an empty
mapping. -/
def pip_freeze (runRes : Except String String) : List (String × String) :=
  match runRes with
  | .error _ => []
  | .ok out => pipFreezeLines (splitlinesPy out.data)

/-- One record of `conda list --json` output: a JSON object that may carry
`name` and `version` string fields. -/
structure CondaPkgRec where
  name : Option String
  version : Option String
deriving DecidableEq

/-- One step of the dict comprehension in `build_conda_pkg_map`. -/
def buildMapStep (m : List (String × String)) (p : CondaPkgRec) : List (String × String) :=
  match p.name, p.version with
  | some n, some v => dinsert m (pyLowerS n) v
  | _, _ => m

/-- Embedding of `build_conda_pkg_map` (pin_env_versions.py, lines 174-177):
records having both fields map their lowercased name to the version. -/
def build_conda_pkg_map (pkgs : List CondaPkgRec) : List (String × String) :=
  pkgs.foldl buildMapStep []

/-- The `shutil.which` loop of `_resolve_conda_exe`: first truthy hit among
the candidate command names. -/
def firstWhich (which : String → Option String) : List String → Option String
  | [] => none
  | c :: t =>
    match which c with
    | some f => if f = "" then firstWhich which t else some f
    | none => firstWhich which t

/-- The fixed fallback locations of `_resolve_conda_exe` (lines 73-78),
derived from `sys.prefix` and its parent directory. -/
def fallbackCandidates (sysPrefixParent sysPrefix : String) : List String :=
  [sysPrefixParent ++ "/condabin/conda.bat",
   sysPrefixParent ++ "/condabin/conda.exe",
   sysPrefix ++ "/Scripts/conda.exe",
   sysPrefix ++ "/Scripts/conda.bat"]

/-- The `FileNotFoundError` message of `_resolve_conda_exe`. -/
def resolveErrMsg : String :=
  "Could not resolve conda executable. Ensure you are running inside a conda shell (so CONDA_EXE is set) or that conda is on PATH."

/-- Stages 2 and 3 of `_resolve_conda_exe`: the PATH lookup loop, then the
fallback locations, then the error. -/
def resolveAfterEnv (which : String → Option String) (pathExists : String → Bool)
    (sysPrefixParent sysPrefix : String) : Except String String :=
  match firstWhich which ["conda", "conda.exe", "conda.bat"] with
  | some f => .ok f
  | none =>
    match (fallbackCandidates sysPrefixParent sysPrefix).find? pathExists with
    | some c => .ok c
    | none => .error resolveErrMsg

/-- Embedding of `_resolve_conda_exe` (pin_env_versions.py, lines 54-86).
The environment (variable value, PATH lookup, filesystem) is modelled by
oracles passed as arguments. -/
def resolve_conda_exe (condaExeVar : Option String) (which : String → Option String)
    (pathExists : String → Bool) (sysPrefixParent sysPrefix : String) : Except String String :=
  match condaExeVar with
  | some s =>
    if s ≠ "" ∧ pathExists s then .ok s
    else resolveAfterEnv which pathExists sysPrefixParent sysPrefix
  | none => resolveAfterEnv which pathExists sysPrefixParent sysPrefix

/-- Stage one of executable resolution, as the spec words it: the
environment variable's value, used only if the path it names exists. -/
def specEnvStage (condaExeVar : Option String) (pathExists : String → Bool) : Option String :=
  match condaExeVar with
  | some s => if s ≠ "" ∧ pathExists s then some s else none
  | none => none

/-- Stage two of executable resolution, as the spec words it: lookup on the
execution search path. -/
def specPathStage (which : String → Option String) : Option String :=
  firstWhich which ["conda", "conda.exe", "conda.bat"]

/-- Stage three of executable resolution, as the spec words it: the first
existing file among the fixed fallback locations. -/
def specFallbackStage (pathExists : String → Bool) (sysPrefixParent sysPrefix : String) :
    Option String :=
  (fallbackCandidates sysPrefixParent sysPrefix).find? pathExists

/-- Python truthiness of a YAML value. -/
def yTruthy : YVal → Bool
  | .str s => !(s = "")
  | .list l => !l.isEmpty
  | .ymap m => !m.isEmpty
  | .ynull => false
  | .ybool b => b
  | .yint n => !(n = 0)

/-- Is a YAML value a string? (`isinstance(item, str)`). -/
def isStrY : YVal → Bool
  | .str _ => true
  | _ => false

/-- The command-line arguments of `main` after `argparse`. -/
structure Args where
  input : String
  output : String
  env : Option String
  pinPip : Bool
  keepPythonUnpinned : Bool
  inplace : Bool
  lockLinux64 : Bool
  lockOutput : String
deriving DecidableEq

/-- Result of one run of `main`: the output manifest write (path and
content), if any, and either a returned exit code or an uncaught raised
error. -/
structure MainResult where
  written : Option (String × List (String × YVal))
  outcome : Except String Nat

/-- The value of `args.env or data.get("name")` (Python `or`: the second
operand is used when `args.env` is `None` or empty). -/
def envNameVal (argEnv : Option String) (data : List (String × YVal)) : Option YVal :=
  match argEnv with
  | some s => if s = "" then dlookup data "name" else some (.str s)
  | none => dlookup data "name"

/-- Truthiness of the resolved environment name (`if not env_name:`). -/
def envAvailable (argEnv : Option String) (data : List (String × YVal)) : Bool :=
  match envNameVal argEnv data with
  | none => false
  | some v => yTruthy v

/-- `isinstance(data.get("dependencies"), list)`. -/
def depsValid (data : List (String × YVal)) : Bool :=
  match dlookup data "dependencies" with
  | some (.list _) => true
  | _ => false

/-- The dependency list of the manifest (meaningful once `depsValid`). -/
def depsListOf (data : List (String × YVal)) : List YVal :=
  match dlookup data "dependencies" with
  | some (.list l) => l
  | _ => []

/-- The `--pin-pip` update of one already-conda-pinned entry (pin_env_versions.py,
lines 371-377): a mapping with a `pip` list gets that list pinned in a copy;
everything else passes through. -/
def pinPipUpdateItem (pip_pkgs : List (String × String)) (item : YVal) : YVal :=
  match item with
  | .ymap m =>
    (match dlookup m "pip" with
     | some (.list pl) => .ymap (dinsert m "pip" (.list (pin_pip_deps pl pip_pkgs)))
     | _ => item)
  | _ => item

/-- Embedding of `main` (pin_env_versions.py, lines 306-392) from the point
where the manifest mapping has been loaded. External effects are modelled by
their results: `condaListRes` for `conda list --json`, `pipRunRes` for the
freeze command, `condaLockOnPath` for `shutil.which("conda-lock")`,
`lockRunRes` for the conda-lock invocation. Validation failures return exit
code 2 before anything is written; the manifest write happens before the
lock step, so a lock failure leaves the written file in place. -/
def mainModel (args : Args) (data : List (String × YVal))
    (condaListRes : Except String (List CondaPkgRec))
    (pipRunRes : Except String String)
    (condaLockOnPath : Bool) (lockRunRes : Except String Unit) : MainResult :=
  if envAvailable args.env data = false then
    { written := none, outcome := .ok 2 }
  else if depsValid data = false then
    { written := none, outcome := .ok 2 }
  else
    match condaListRes with
    | .error e => { written := none, outcome := .error e }
    | .ok pkgs =>
      let conda_pkgs := build_conda_pkg_map pkgs
      let pinned := pin_conda_deps (depsListOf data) conda_pkgs args.keepPythonUnpinned
      let pinned2 :=
        if args.pinPip then pinned.map (pinPipUpdateItem (pip_freeze pipRunRes)) else pinned
      let out_data := dinsert data "dependencies" (.list pinned2)
      let out_path := if args.inplace then args.input else args.output
      if args.lockLinux64 then
        (if condaLockOnPath = false then
          { written := some (out_path, out_data),
            outcome := .error "conda-lock not found. Install with: pip install conda-lock" }
         else
          match lockRunRes with
          | .error e => { written := some (out_path, out_data), outcome := .error e }
          | .ok _ => { written := some (out_path, out_data), outcome := .ok 0 })
      else { written := some (out_path, out_data), outcome := .ok 0 }

/-- The `meta.column_labels` attribute of the loaded dataset: absent or
`None`, a dict, a list, or some other shape. -/
inductive ColLabels : Type where
  | absent
  | dictL (m : List (String × String))
  | listL (l : List String)
  | otherL
deriving DecidableEq

/-- Result of one run of `read_data.main`: an uncaught raised error, or
completion having created the output directory and written the CSV rows. -/
inductive RdResult : Type where
  | raised (msg : String)
  | completed (madeDirs : Bool) (rows : List (String × String))
deriving DecidableEq

/-- The `labels_map` built by `read_data.main` (src/read_data.py, lines
24-32): a dict is taken as is; a list is zipped with the columns only when
the lengths agree; anything else degrades to the empty mapping. -/
def labelsMapOf (cols : List String) (meta : ColLabels) : List (String × String) :=
  match meta with
  | .dictL m => m
  | .listL l => if l.length = cols.length then cols.zip l else []
  | _ => []

/-- Embedding of `main` from src/read_data.py (lines 6-45). The fixed-path
input file's existence, its resolved path text, and the loaded dataset's
columns and metadata are modelled as arguments; the missing-file check
raises before the output directory or CSV is created. -/
def read_data_main (dataFileExists : Bool) (resolvedDataPath : String)
    (cols : List String) (meta : ColLabels) : RdResult :=
  if dataFileExists = false then .raised ("Missing file: " ++ resolvedDataPath)
  else
    .completed true
      (cols.map (fun c => (c, (dlookup (labelsMapOf cols meta) c).getD "")))

/-- What C5 asserts of a freeze-output line that contributes a binding to the
mapping: once stripped it is non-blank, no comment, contains `==`, is no
editable install, and the binding is the normalized name before the first
`==` mapped to the text after it. -/
def freezeLineYields (raw : List Char) (k v : String) : Prop :=
  pyStrip raw ≠ [] ∧
  "#".data.isPrefixOf (pyStrip raw) = false ∧
  containsSub "==".data (pyStrip raw) = true ∧
  "-e ".data.isPrefixOf (pyStrip raw) = false ∧
  ∃ nm ver, splitOnce "==".data (pyStrip raw) = some (nm, ver) ∧
    k = normalize_name (String.mk nm) ∧ v = String.mk ver

-- sanity checks of the embedding on concrete values
example : normalize_name "  Foo_.Bar-baz " = "foo-bar-baz" := by decide
example : normalize_name "uvicorn" = "uvicorn" := by decide
example : parse_conda_dep "conda-forge::scipy>=1.10" = (some "conda-forge", "scipy") := by decide
example : parse_conda_dep "numpy" = (none, "numpy") := by decide
example :
    pin_conda_deps [.str "conda-forge::scipy>=1.10"] [("scipy", "1.12.0")] false =
      [.str "conda-forge::scipy=1.12.0"] := rfl
example :
    pin_conda_deps [.str "numpy"] [("numpy", "1.26.4")] false = [.str "numpy=1.26.4"] := rfl
example : extract_pip_name "uvicorn[standard]" = ("uvicorn", "[standard]") := by decide
example : extract_pip_name "fastapi" = ("fastapi", "") := by decide
example :
    pin_pip_deps [.str "fastapi"] [("fastapi", "0.110.0")] = [.str "fastapi==0.110.0"] := rfl

/-! Helper lemmas about the character-level primitives. -/

theorem char_toNat_ofNat_valid (n : Nat) (h : n.isValidChar) : (Char.ofNat n).toNat = n := by
  simp only [Char.ofNat, h, dite_true, Char.ofNatAux, Char.toNat]
  rfl

theorem char_eq_iff_toNat (c d : Char) : c = d ↔ c.toNat = d.toNat := by
  constructor
  · rintro rfl; rfl
  · intro h
    apply Char.eq_of_val_eq
    apply UInt32.eq_of_toBitVec_eq
    apply BitVec.eq_of_toNat_eq
    exact h

theorem pyToLower_toNat_of_upper (c : Char) (h : 65 ≤ c.toNat ∧ c.toNat ≤ 90) :
    (pyToLower c).toNat = c.toNat + 32 := by
  unfold pyToLower
  rw [if_pos h]
  exact char_toNat_ofNat_valid _ (Or.inl (by omega))

theorem pyToLower_idem (c : Char) : pyToLower (pyToLower c) = pyToLower c := by
  by_cases h : 65 ≤ c.toNat ∧ c.toNat ≤ 90
  · have hv : (pyToLower c).toNat = c.toNat + 32 := pyToLower_toNat_of_upper c h
    have hne : ¬(65 ≤ (pyToLower c).toNat ∧ (pyToLower c).toNat ≤ 90) := by omega
    show (if 65 ≤ (pyToLower c).toNat ∧ (pyToLower c).toNat ≤ 90 then
        Char.ofNat ((pyToLower c).toNat + 32) else pyToLower c) = pyToLower c
    rw [if_neg hne]
  · unfold pyToLower
    rw [if_neg h, if_neg h]

theorem pySpace_eq_toNat (c : Char) :
    pySpace c = (decide (c.toNat = 32) || decide (c.toNat = 9) || decide (c.toNat = 10) ||
      decide (c.toNat = 13) || decide (c.toNat = 11) || decide (c.toNat = 12)) := by
  unfold pySpace
  simp only [char_eq_iff_toNat]
  rfl

theorem pySpace_pyToLower (c : Char) : pySpace (pyToLower c) = pySpace c := by
  by_cases h : 65 ≤ c.toNat ∧ c.toNat ≤ 90
  · have hv : (pyToLower c).toNat = c.toNat + 32 := pyToLower_toNat_of_upper c h
    have hA : pySpace (pyToLower c) = false := by
      rw [pySpace_eq_toNat, hv]
      simp only [Bool.or_eq_false_iff, decide_eq_false_iff_not]
      omega
    have hB : pySpace c = false := by
      rw [pySpace_eq_toNat]
      simp only [Bool.or_eq_false_iff, decide_eq_false_iff_not]
      omega
    rw [hA, hB]
  · unfold pyToLower
    rw [if_neg h]

theorem isSepChar_not_space {c : Char} (h : isSepChar c = true) : pySpace c = false := by
  unfold isSepChar at h
  rcases Bool.or_eq_true_iff.mp h with h1 | h2
  · rcases Bool.or_eq_true_iff.mp h1 with h3 | h4
    · rw [of_decide_eq_true h3]; decide
    · rw [of_decide_eq_true h4]; decide
  · rw [of_decide_eq_true h2]; decide

/-! Helper lemmas about `dropWhile` and `pyStrip`. -/

theorem head?_dropWhile_false {α : Type} {p : α → Bool} {l : List α} {x : α}
    (h : (l.dropWhile p).head? = some x) : p x = false := by
  have hm := List.head?_dropWhile_not p l
  rw [h] at hm
  exact hm

theorem dropWhile_eq_self_of_head {α : Type} {p : α → Bool} {l : List α}
    (h : ∀ x, l.head? = some x → p x = false) : l.dropWhile p = l := by
  rw [List.dropWhile_eq_self_iff]
  intro hl
  have hx : l.head? = some (l.get ⟨0, hl⟩) := by
    cases l with
    | nil => simp at hl
    | cons a t => rfl
  rw [h _ hx]
  simp

theorem getLast?_dropWhile {α : Type} (p : α → Bool) (l : List α)
    (h : l.dropWhile p ≠ []) : (l.dropWhile p).getLast? = l.getLast? := by
  obtain ⟨t, ht⟩ := List.dropWhile_suffix (l := l) p
  conv_rhs => rw [← ht]
  rw [List.getLast?_append]
  cases hd : (l.dropWhile p).getLast? with
  | none => exact absurd (List.getLast?_eq_none_iff.mp hd) h
  | some x => rfl

theorem pyStrip_head {l : List Char} {x : Char} (h : (pyStrip l).head? = some x) :
    pySpace x = false := by
  unfold pyStrip at h
  rw [List.head?_reverse] at h
  have hne : (l.dropWhile pySpace).reverse.dropWhile pySpace ≠ [] := by
    intro hnil
    rw [hnil] at h
    exact Option.noConfusion h
  rw [getLast?_dropWhile _ _ hne, List.getLast?_reverse] at h
  exact head?_dropWhile_false h

theorem pyStrip_last {l : List Char} {x : Char} (h : (pyStrip l).getLast? = some x) :
    pySpace x = false := by
  unfold pyStrip at h
  rw [List.getLast?_reverse] at h
  exact head?_dropWhile_false h

theorem pyStrip_eq_self {l : List Char}
    (hh : ∀ x, l.head? = some x → pySpace x = false)
    (hl : ∀ x, l.getLast? = some x → pySpace x = false) : pyStrip l = l := by
  unfold pyStrip
  rw [dropWhile_eq_self_of_head hh]
  have hrev : l.reverse.dropWhile pySpace = l.reverse := by
    apply dropWhile_eq_self_of_head
    intro x hx
    rw [List.head?_reverse] at hx
    exact hl x hx
  rw [hrev, List.reverse_reverse]

/-! Helper lemmas about `collapseSep`. -/

theorem collapseSep_nil : collapseSep [] = [] := rfl

theorem collapseSep_single (c : Char) :
    collapseSep [c] = if isSepChar c then ['-'] else [c] := rfl

theorem collapseSep_cons2 (c d : Char) (cs : List Char) :
    collapseSep (c :: d :: cs) =
      if isSepChar c then
        (if isSepChar d then collapseSep (d :: cs) else '-' :: collapseSep (d :: cs))
      else c :: collapseSep (d :: cs) := rfl

theorem collapseSep_ne_nil {l : List Char} (h : l ≠ []) : collapseSep l ≠ [] := by
  induction l using collapseSep.induct with
  | case1 => exact absurd rfl h
  | case2 c hc => simp [collapseSep_single, hc]
  | case3 c hc => simp [collapseSep_single, hc]
  | case4 c d cs hc hd ih =>
    rw [collapseSep_cons2, if_pos hc, if_pos hd]
    exact ih (by simp)
  | case5 c d cs hc hd ih => simp [collapseSep_cons2, hc, hd]
  | case6 c d cs hc ih => simp [collapseSep_cons2, hc]

theorem collapseSep_cons_nonsep {d : Char} (h : ¬isSepChar d = true) (cs : List Char) :
    collapseSep (d :: cs) = d :: collapseSep cs := by
  cases cs with
  | nil => simp [collapseSep_single, collapseSep_nil, h]
  | cons e t => rw [collapseSep_cons2, if_neg h]

theorem mem_collapseSep {c : Char} {l : List Char} (h : c ∈ collapseSep l) :
    c = '-' ∨ c ∈ l := by
  induction l using collapseSep.induct with
  | case1 => rw [collapseSep_nil] at h; simp at h
  | case2 x hx =>
    rw [collapseSep_single, if_pos hx] at h
    simp at h
    exact Or.inl h
  | case3 x hx =>
    rw [collapseSep_single, if_neg hx] at h
    simp at h
    simp [h]
  | case4 x d cs hx hd ih =>
    rw [collapseSep_cons2, if_pos hx, if_pos hd] at h
    rcases ih h with h1 | h2
    · exact Or.inl h1
    · exact Or.inr (List.mem_cons_of_mem x h2)
  | case5 x d cs hx hd ih =>
    rw [collapseSep_cons2, if_pos hx, if_neg hd] at h
    rcases List.mem_cons.mp h with h1 | h2
    · exact Or.inl h1
    · rcases ih h2 with h3 | h4
      · exact Or.inl h3
      · exact Or.inr (List.mem_cons_of_mem x h4)
  | case6 x d cs hx ih =>
    rw [collapseSep_cons2, if_neg hx] at h
    rcases List.mem_cons.mp h with h1 | h2
    · exact Or.inr (by simp [h1])
    · rcases ih h2 with h3 | h4
      · exact Or.inl h3
      · exact Or.inr (List.mem_cons_of_mem x h4)

theorem collapseSep_head_space (l : List Char)
    (hh : ∀ x, l.head? = some x → pySpace x = false) :
    ∀ y, (collapseSep l).head? = some y → pySpace y = false := by
  induction l using collapseSep.induct with
  | case1 => intro y hy; rw [collapseSep_nil] at hy; exact Option.noConfusion hy
  | case2 c hc =>
    intro y hy
    rw [collapseSep_single, if_pos hc] at hy
    simp at hy
    rw [← hy]; decide
  | case3 c hc =>
    intro y hy
    rw [collapseSep_single, if_neg hc] at hy
    simp at hy
    exact hy ▸ hh c rfl
  | case4 c d cs hc hd ih =>
    intro y hy
    rw [collapseSep_cons2, if_pos hc, if_pos hd] at hy
    exact ih (fun z hz => by simp at hz; exact hz ▸ isSepChar_not_space hd) y hy
  | case5 c d cs hc hd ih =>
    intro y hy
    rw [collapseSep_cons2, if_pos hc, if_neg hd] at hy
    simp at hy
    rw [← hy]; decide
  | case6 c d cs hc ih =>
    intro y hy
    rw [collapseSep_cons2, if_neg hc] at hy
    simp at hy
    exact hy ▸ hh c rfl

theorem getLast?_cons_of_ne_nil {α : Type} (a : α) {t : List α} (h : t ≠ []) :
    (a :: t).getLast? = t.getLast? := by
  cases t with
  | nil => exact absurd rfl h
  | cons b t' => exact List.getLast?_cons_cons

theorem collapseSep_last_space (l : List Char)
    (hl : ∀ x, l.getLast? = some x → pySpace x = false) :
    ∀ y, (collapseSep l).getLast? = some y → pySpace y = false := by
  induction l using collapseSep.induct with
  | case1 => intro y hy; rw [collapseSep_nil] at hy; exact Option.noConfusion hy
  | case2 c hc =>
    intro y hy
    rw [collapseSep_single, if_pos hc] at hy
    simp at hy
    rw [← hy]; decide
  | case3 c hc =>
    intro y hy
    rw [collapseSep_single, if_neg hc] at hy
    simp at hy
    exact hy ▸ hl c (by simp)
  | case4 c d cs hc hd ih =>
    intro y hy
    rw [collapseSep_cons2, if_pos hc, if_pos hd] at hy
    exact ih (fun z hz => hl z (by rw [List.getLast?_cons_cons]; exact hz)) y hy
  | case5 c d cs hc hd ih =>
    intro y hy
    rw [collapseSep_cons2, if_pos hc, if_neg hd] at hy
    rw [getLast?_cons_of_ne_nil _ (collapseSep_ne_nil (by simp))] at hy
    exact ih (fun z hz => hl z (by rw [List.getLast?_cons_cons]; exact hz)) y hy
  | case6 c d cs hc ih =>
    intro y hy
    rw [collapseSep_cons2, if_neg hc] at hy
    rw [getLast?_cons_of_ne_nil _ (collapseSep_ne_nil (by simp))] at hy
    exact ih (fun z hz => hl z (by rw [List.getLast?_cons_cons]; exact hz)) y hy

theorem collapseSep_idem (l : List Char) : collapseSep (collapseSep l) = collapseSep l := by
  induction l using collapseSep.induct with
  | case1 => rfl
  | case2 c hc =>
    rw [collapseSep_single, if_pos hc]
    decide
  | case3 c hc =>
    rw [collapseSep_single, if_neg hc, collapseSep_single, if_neg hc]
  | case4 c d cs hc hd ih =>
    rw [collapseSep_cons2, if_pos hc, if_pos hd]
    exact ih
  | case5 c d cs hc hd ih =>
    rw [collapseSep_cons2, if_pos hc, if_neg hd]
    rw [collapseSep_cons_nonsep hd] at ih ⊢
    rw [collapseSep_cons2, if_pos (by decide : isSepChar '-' = true), if_neg hd, ih]
  | case6 c d cs hc ih =>
    rw [collapseSep_cons2, if_neg hc]
    obtain ⟨x, t, hxt⟩ : ∃ x t, collapseSep (d :: cs) = x :: t := by
      cases hdc : collapseSep (d :: cs) with
      | nil => exact absurd hdc (collapseSep_ne_nil (by simp))
      | cons x t => exact ⟨x, t, rfl⟩
    rw [hxt, collapseSep_cons2, if_neg hc, ← hxt, ih]

/-- C6: `normalize_name` is idempotent: for every string `s`,
`normalize_name (normalize_name s) = normalize_name s`. -/
theorem normalize_name_idem (s : String) :
    normalize_name (normalize_name s) = normalize_name s := by
  unfold normalize_name
  show String.mk (collapseSep (pyLower (pyStrip (collapseSep (pyLower (pyStrip s.data)))))) =
    String.mk (collapseSep (pyLower (pyStrip s.data)))
  congr 1
  have hmhead : ∀ z, (pyLower (pyStrip s.data)).head? = some z → pySpace z = false := by
    intro z hz
    unfold pyLower at hz
    rw [List.head?_map] at hz
    cases hu : (pyStrip s.data).head? with
    | none => rw [hu] at hz; exact Option.noConfusion hz
    | some w =>
      rw [hu] at hz
      simp at hz
      rw [← hz, pySpace_pyToLower]
      exact pyStrip_head hu
  have hmlast : ∀ z, (pyLower (pyStrip s.data)).getLast? = some z → pySpace z = false := by
    intro z hz
    unfold pyLower at hz
    rw [List.getLast?_map] at hz
    cases hu : (pyStrip s.data).getLast? with
    | none => rw [hu] at hz; exact Option.noConfusion hz
    | some w =>
      rw [hu] at hz
      simp at hz
      rw [← hz, pySpace_pyToLower]
      exact pyStrip_last hu
  have hstrip : pyStrip (collapseSep (pyLower (pyStrip s.data))) =
      collapseSep (pyLower (pyStrip s.data)) := by
    apply pyStrip_eq_self
    · exact collapseSep_head_space _ hmhead
    · exact collapseSep_last_space _ hmlast
  have hlower : pyLower (collapseSep (pyLower (pyStrip s.data))) =
      collapseSep (pyLower (pyStrip s.data)) := by
    unfold pyLower
    rw [List.map_congr_left (g := id) ?_, List.map_id]
    intro a ha
    rcases mem_collapseSep ha with h1 | h2
    · rw [h1]; decide
    · obtain ⟨b, _, hb⟩ := List.mem_map.mp h2
      rw [← hb]
      exact pyToLower_idem b
  rw [hstrip, hlower, collapseSep_idem]

/-! Helper lemmas about the pinning loops. -/

theorem pin_conda_deps_cons (a : YVal) (t : List YVal) (cp : List (String × String))
    (k : Bool) :
    pin_conda_deps (a :: t) cp k = pinCondaItem cp k a :: pin_conda_deps t cp k := rfl

theorem pin_pip_deps_cons (a : YVal) (t : List YVal) (pp : List (String × String)) :
    pin_pip_deps (a :: t) pp = pinPipItem pp a :: pin_pip_deps t pp := rfl

theorem pin_conda_deps_eq_map (deps : List YVal) (cp : List (String × String)) (k : Bool) :
    pin_conda_deps deps cp k = deps.map (pinCondaItem cp k) := by
  induction deps with
  | nil => rfl
  | cons a t ih => rw [pin_conda_deps_cons, List.map_cons, ih]

theorem pin_pip_deps_eq_map (deps : List YVal) (pp : List (String × String)) :
    pin_pip_deps deps pp = deps.map (pinPipItem pp) := by
  induction deps with
  | nil => rfl
  | cons a t ih => rw [pin_pip_deps_cons, List.map_cons, ih]

theorem pinCondaItem_not_str (cp : List (String × String)) (k : Bool) {v : YVal}
    (h : isStrY v = false) : pinCondaItem cp k v = v := by
  cases v with
  | str s => simp [isStrY] at h
  | list l => rfl
  | ymap m => rfl
  | ynull => rfl
  | ybool b => rfl
  | yint n => rfl

theorem pinPipItem_not_str (pp : List (String × String)) {v : YVal}
    (h : isStrY v = false) : pinPipItem pp v = v := by
  cases v with
  | str s => simp [isStrY] at h
  | list l => rfl
  | ymap m => rfl
  | ynull => rfl
  | ybool b => rfl
  | yint n => rfl

/-- Core of C1: the rewrite `pinCondaItem` performs on a string entry whose
parsed name has a non-empty installed version, outside the unpinned-python
branch. -/
theorem pinCondaItem_resolved (cp : List (String × String)) (k : Bool) (s : String)
    (ch : Option String) (nm v : String)
    (hparse : parse_conda_dep s = (ch, nm))
    (hver : dlookup cp (pyLowerS nm) = some v) (hv : v ≠ "")
    (hpy : ¬(k = true ∧ pyLowerS nm = "python")) :
    pinCondaItem cp k (.str s) =
      .str (match ch with
            | some c => if c = "" then nm ++ "=" ++ v else c ++ "::" ++ (nm ++ "=" ++ v)
            | none => nm ++ "=" ++ v) := by
  simp only [pinCondaItem, hparse]
  rw [if_neg hpy, hver]
  simp only [if_neg hv]
  cases ch with
  | none => rfl
  | some c => rfl

/-- C1: for every string entry whose parsed package name (lowercased) has a
non-empty version in the installed-package mapping, and which is not the
interpreter under unpinned-interpreter mode, `pin_conda_deps` places
`name=version` at that entry's position, prefixed with the original
`channel::` text exactly when the entry carried one, preserving the channel
text and the name's casing. -/
theorem pin_conda_pins_resolvable (cp : List (String × String)) (k : Bool) (s : String)
    (ch : Option String) (nm v : String)
    (hparse : parse_conda_dep s = (ch, nm))
    (hver : dlookup cp (pyLowerS nm) = some v) (hv : v ≠ "")
    (hpy : ¬(k = true ∧ pyLowerS nm = "python")) :
    (ch = none → ∀ (deps : List YVal) (i : Nat), deps[i]? = some (.str s) →
      (pin_conda_deps deps cp k)[i]? = some (.str (nm ++ "=" ++ v))) ∧
    (∀ c, ch = some c → c ≠ "" → ∀ (deps : List YVal) (i : Nat),
      deps[i]? = some (.str s) →
      (pin_conda_deps deps cp k)[i]? = some (.str (c ++ "::" ++ (nm ++ "=" ++ v)))) := by
  have hcore := pinCondaItem_resolved cp k s ch nm v hparse hver hv hpy
  constructor
  · intro hch deps i hi
    subst hch
    rw [pin_conda_deps_eq_map, List.getElem?_map, hi, Option.map_some']
    rw [hcore]
  · intro c hch hc deps i hi
    subst hch
    rw [pin_conda_deps_eq_map, List.getElem?_map, hi, Option.map_some']
    rw [hcore]
    simp only [if_neg hc]

/-- C1 witness: the claim's own concrete instance. -/
theorem pin_conda_pins_resolvable_witness :
    (pin_conda_deps [.str "conda-forge::scipy>=1.10"] [("scipy", "1.12.0")] false)[0]? =
      some (.str "conda-forge::scipy=1.12.0") := by
  have h :=
    (pin_conda_pins_resolvable [("scipy", "1.12.0")] false "conda-forge::scipy>=1.10"
        (some "conda-forge") "scipy" "1.12.0" (by decide) (by decide) (by decide)
        (by simp)).2 "conda-forge" rfl (by decide)
      [.str "conda-forge::scipy>=1.10"] 0 rfl
  rw [h]
  rfl

/-- C2: for every string entry whose parsed package name (lowercased) is
absent from the installed-package mapping, and which is not the interpreter
under unpinned-interpreter mode, the entry `pin_conda_deps` places in the
output list is byte-identical to the input entry. -/
theorem pin_conda_keeps_unresolved (cp : List (String × String)) (k : Bool) (s : String)
    (ch : Option String) (nm : String)
    (hparse : parse_conda_dep s = (ch, nm))
    (hnone : dlookup cp (pyLowerS nm) = none)
    (hpy : ¬(k = true ∧ pyLowerS nm = "python")) :
    ∀ (deps : List YVal) (i : Nat), deps[i]? = some (.str s) →
      (pin_conda_deps deps cp k)[i]? = some (.str s) := by
  have hcore : pinCondaItem cp k (.str s) = .str s := by
    simp only [pinCondaItem, hparse]
    rw [if_neg hpy, hnone]
  intro deps i hi
  rw [pin_conda_deps_eq_map, List.getElem?_map, hi, Option.map_some', hcore]

/-- C2 witness. -/
theorem pin_conda_keeps_unresolvable_witness :
    (pin_conda_deps [.str "numpy>=1.26"] [("scipy", "1.12.0")] false)[0]? =
      some (.str "numpy>=1.26") :=
  pin_conda_keeps_unresolved [("scipy", "1.12.0")] false "numpy>=1.26" none "numpy"
    (by decide) (by decide) (by simp) [.str "numpy>=1.26"] 0 rfl

/-- C10: a dependency whose lowercased name is mapped to the empty string is
treated like a missing package: the entry is left unchanged (the falsy
version check, not key membership, decides). -/
theorem pin_conda_empty_version_unchanged (cp : List (String × String)) (k : Bool)
    (s : String) (ch : Option String) (nm : String)
    (hparse : parse_conda_dep s = (ch, nm))
    (hempty : dlookup cp (pyLowerS nm) = some "")
    (hpy : ¬(k = true ∧ pyLowerS nm = "python")) :
    ∀ (deps : List YVal) (i : Nat), deps[i]? = some (.str s) →
      (pin_conda_deps deps cp k)[i]? = some (.str s) := by
  have hcore : pinCondaItem cp k (.str s) = .str s := by
    simp only [pinCondaItem, hparse]
    rw [if_neg hpy, hempty]
    simp
  intro deps i hi
  rw [pin_conda_deps_eq_map, List.getElem?_map, hi, Option.map_some', hcore]

/-- C10 witness. -/
theorem pin_conda_empty_version_unchanged_witness :
    (pin_conda_deps [.str "numpy"] [("numpy", "")] false)[0]? = some (.str "numpy") :=
  pin_conda_empty_version_unchanged [("numpy", "")] false "numpy" none "numpy"
    (by decide) (by decide) (by simp) [.str "numpy"] 0 rfl

/-- C3 counterexample: an entry containing `==` but carrying surrounding
whitespace is not returned byte-identical: `pin_pip_deps` returns the
stripped text. -/
theorem pin_pip_noop_counterexample :
    pin_pip_deps [.str " fastapi==0.1 "] [] ≠ [.str " fastapi==0.1 "] := by
  intro h
  have h0 : pin_pip_deps [.str " fastapi==0.1 "] [] = [.str "fastapi==0.1"] := rfl
  rw [h0] at h
  have h1 : YVal.str "fastapi==0.1" = YVal.str " fastapi==0.1 " := by
    injection h
  have h2 : "fastapi==0.1" = " fastapi==0.1 " := by injection h1
  exact absurd h2 (by decide)

/-- C3 (amended): for every string entry whose stripped text contains `==`,
or contains `@`, or starts with `-e `, `pin_pip_deps` outputs the stripped
input text; in particular the entry passes through unchanged whenever it
carries no surrounding whitespace. -/
theorem pin_pip_noop_on_pinned (pp : List (String × String)) (s : String)
    (h : containsSub "==".data (pyStrip s.data) = true ∨
         containsSub "@".data (pyStrip s.data) = true ∨
         "-e ".data.isPrefixOf (pyStrip s.data) = true) :
    pinPipItem pp (.str s) = .str (pyStripS s) ∧
    (pyStripS s = s →
      ∀ (pipList : List YVal) (i : Nat), pipList[i]? = some (.str s) →
        (pin_pip_deps pipList pp)[i]? = some (.str s)) := by
  have hcond : (containsSub "==".data (pyStrip s.data) ||
      containsSub "@".data (pyStrip s.data) ||
      "-e ".data.isPrefixOf (pyStrip s.data)) = true := by
    rcases h with h1 | h2 | h3
    · simp [h1]
    · simp [h2]
    · simp [h3]
  have hcore : pinPipItem pp (.str s) = .str (pyStripS s) := by
    simp only [pinPipItem]
    rw [if_pos hcond]
    rfl
  refine ⟨hcore, ?_⟩
  intro hs pipList i hi
  rw [pin_pip_deps_eq_map, List.getElem?_map, hi, Option.map_some', hcore, hs]

/-- C3 witness (for the amended claim): a whitespace-free pinned entry passes
through unchanged. -/
theorem pin_pip_noop_on_pinned_witness :
    (pin_pip_deps [.str "fastapi==0.110.0"] [])[0]? = some (.str "fastapi==0.110.0") :=
  (pin_pip_noop_on_pinned [] "fastapi==0.110.0" (Or.inl (by decide))).2 (by decide)
    [.str "fastapi==0.110.0"] 0 rfl

/-- C9: both pinning operations preserve the shape of the dependency list:
the output is the elementwise image of the input (same length, same order,
each output entry derived from the input entry at the same index alone), and
every non-string element passes through unchanged. -/
theorem pin_deps_shape (deps : List YVal) (cp pp : List (String × String)) (k : Bool) :
    pin_conda_deps deps cp k = deps.map (pinCondaItem cp k) ∧
    pin_pip_deps deps pp = deps.map (pinPipItem pp) ∧
    (pin_conda_deps deps cp k).length = deps.length ∧
    (pin_pip_deps deps pp).length = deps.length ∧
    (∀ (i : Nat) (v : YVal), deps[i]? = some v → isStrY v = false →
      (pin_conda_deps deps cp k)[i]? = some v ∧ (pin_pip_deps deps pp)[i]? = some v) := by
  refine ⟨pin_conda_deps_eq_map deps cp k, pin_pip_deps_eq_map deps pp, ?_, ?_, ?_⟩
  · rw [pin_conda_deps_eq_map, List.length_map]
  · rw [pin_pip_deps_eq_map, List.length_map]
  · intro i v hi hstr
    constructor
    · rw [pin_conda_deps_eq_map, List.getElem?_map, hi, Option.map_some',
        pinCondaItem_not_str cp k hstr]
    · rw [pin_pip_deps_eq_map, List.getElem?_map, hi, Option.map_some',
        pinPipItem_not_str pp hstr]

/-- C9 witness: a non-string entry (the nested `pip:` mapping) is passed
through unchanged by both loops. -/
theorem pin_deps_shape_witness :
    (pin_conda_deps [.ymap []] [] false)[0]? = some (.ymap []) ∧
    (pin_pip_deps [.ymap []] [])[0]? = some (.ymap []) :=
  (pin_deps_shape [.ymap []] [] [] false).2.2.2.2 0 (.ymap []) rfl rfl

/-! Helper lemmas about the dict model and the freeze parser. -/

theorem dlookup_dinsert {α : Type} (m : List (String × α)) (k k' : String) (v : α) :
    dlookup (dinsert m k v) k' = if k = k' then some v else dlookup m k' := by
  induction m with
  | nil =>
    by_cases h : k = k' <;> simp [dinsert, dlookup, h]
  | cons p t ih =>
    by_cases hp : p.1 = k
    · rw [dinsert, if_pos hp]
      by_cases hk : k = k'
      · rw [dlookup, if_pos hk, if_pos hk]
      · rw [dlookup, if_neg hk, if_neg hk, dlookup, if_neg (by rw [hp]; exact hk)]
    · rw [dinsert, if_neg hp]
      by_cases hpk : p.1 = k'
      · rw [dlookup, if_pos hpk, dlookup, if_pos hpk,
          if_neg (fun hkk => hp (by rw [hkk]; exact hpk))]
      · rw [dlookup, if_neg hpk, dlookup, if_neg hpk, ih]

theorem freezeStep_lookup (m : List (String × String)) (raw : List Char)
    (k : String) (v : String) (h : dlookup (freezeStep m raw) k = some v) :
    freezeLineYields raw k v ∨ dlookup m k = some v := by
  simp only [freezeStep] at h
  split at h
  · exact Or.inr h
  · rename_i hblank
    split at h
    · rename_i hpin
      split at h
      · rename_i nm ver hsplit
        rw [dlookup_dinsert] at h
        split at h
        · rename_i hk
          left
          have hb := hblank
          simp only [Bool.or_eq_true, decide_eq_true_eq, not_or] at hb
          have hp := hpin
          simp only [Bool.and_eq_true, Bool.not_eq_true'] at hp
          refine ⟨hb.1, ?_, hp.1, hp.2, nm, ver, hsplit, hk.symm, ?_⟩
          · rcases hx : "#".data.isPrefixOf (pyStrip raw) with _ | _
            · rfl
            · exact absurd hx hb.2
          · exact (Option.some.inj h).symm
        · exact Or.inr h
      · exact Or.inr h
    · exact Or.inr h

theorem pipFreezeLines_lookup (lines : List (List Char)) (m : List (String × String))
    (k : String) (v : String)
    (h : dlookup (lines.foldl freezeStep m) k = some v) :
    (∃ raw ∈ lines, freezeLineYields raw k v) ∨ dlookup m k = some v := by
  induction lines generalizing m with
  | nil => exact Or.inr h
  | cons raw rest ih =>
    rw [List.foldl_cons] at h
    rcases ih (freezeStep m raw) h with h1 | h2
    · obtain ⟨r, hr, hy⟩ := h1
      exact Or.inl ⟨r, List.mem_cons_of_mem raw hr, hy⟩
    · rcases freezeStep_lookup m raw k v h2 with h3 | h4
      · exact Or.inl ⟨raw, List.mem_cons_self raw rest, h3⟩
      · exact Or.inr h4

/-- C5: when the freeze command raises, `pip_freeze` returns the empty
mapping rather than propagating the error; when it succeeds, every binding
of the returned mapping comes from a line of the output that is non-blank,
no comment, contains `==` and is no editable install, with the name
normalized. -/
theorem pip_freeze_spec :
    (∀ e, pip_freeze (.error e) = []) ∧
    (∀ out k v, dlookup (pip_freeze (.ok out)) k = some v →
      ∃ raw ∈ splitlinesPy out.data, freezeLineYields raw k v) := by
  constructor
  · intro e; rfl
  · intro out k v h
    unfold pip_freeze pipFreezeLines at h
    rcases pipFreezeLines_lookup (splitlinesPy out.data) [] k v h with h1 | h2
    · exact h1
    · exact absurd h2 (by rw [dlookup]; exact fun hx => Option.noConfusion hx)

/-- C5 witness: a successful freeze output containing a comment, a blank
line, an editable install and one pinned package yields exactly that
package's normalized binding. -/
theorem pip_freeze_spec_witness :
    ∃ raw ∈ splitlinesPy ("# comment\n\n-e ./local\nFoo_Bar==1.2.3\n" : String).data,
      freezeLineYields raw "foo-bar" "1.2.3" := by
  apply (pip_freeze_spec).2 "# comment\n\n-e ./local\nFoo_Bar==1.2.3\n" "foo-bar" "1.2.3"
  decide

/-- C7: executable resolution tries the environment variable (used only when
the path it names exists), then the search-path lookup, then the fixed
fallback locations, returning the first hit, and yields the resolution
error precisely when all three stages miss. -/
theorem resolve_conda_exe_stage_order (v : Option String) (w : String → Option String)
    (ex : String → Bool) (pp p : String) :
    resolve_conda_exe v w ex pp p =
      (match (specEnvStage v ex).or ((specPathStage w).or (specFallbackStage ex pp p)) with
       | some s => Except.ok s
       | none => Except.error resolveErrMsg) := by
  have hafter : resolveAfterEnv w ex pp p =
      (match (specPathStage w).or (specFallbackStage ex pp p) with
       | some s => Except.ok s
       | none => Except.error resolveErrMsg) := by
    unfold resolveAfterEnv specPathStage specFallbackStage
    cases firstWhich w ["conda", "conda.exe", "conda.bat"] with
    | some f => rfl
    | none =>
      cases (fallbackCandidates pp p).find? ex with
      | some c => rfl
      | none => rfl
  cases v with
  | none =>
    simp only [resolve_conda_exe, specEnvStage, Option.none_or]
    exact hafter
  | some s =>
    by_cases hs : s ≠ "" ∧ ex s = true
    · simp only [resolve_conda_exe, specEnvStage, if_pos hs]
      rfl
    · simp only [resolve_conda_exe, specEnvStage, if_neg hs, Option.none_or]
      exact hafter

/-- C4: validation failures of the loaded manifest terminate the pipeline
with exit code 2 and no output manifest write: both when the manifest has no
`dependencies` list and when no environment name is available from `--env`
or the manifest's `name` field. -/
theorem main_validation_exit2 (args : Args) (data : List (String × YVal))
    (condaListRes : Except String (List CondaPkgRec)) (pipRunRes : Except String String)
    (clp : Bool) (lockRunRes : Except String Unit) :
    (depsValid data = false →
      mainModel args data condaListRes pipRunRes clp lockRunRes =
        { written := none, outcome := .ok 2 }) ∧
    (envAvailable args.env data = false →
      mainModel args data condaListRes pipRunRes clp lockRunRes =
        { written := none, outcome := .ok 2 }) := by
  constructor
  · intro hd
    unfold mainModel
    by_cases he : envAvailable args.env data = false
    · rw [if_pos he]
    · rw [if_neg he, if_pos hd]
  · intro he
    unfold mainModel
    rw [if_pos he]

/-- C4 witness: a manifest with a name but no `dependencies` key exits with
code 2 and writes nothing, whatever the external commands would have done. -/
theorem main_validation_exit2_witness :
    mainModel
      { input := "environment.yml", output := "environment.pinned.yml", env := none,
        pinPip := true, keepPythonUnpinned := false, inplace := false,
        lockLinux64 := true, lockOutput := "conda-linux-64.lock" }
      [("name", .str "health-ai")] (.ok []) (.ok "") true (.ok ()) =
      { written := none, outcome := .ok 2 } :=
  (main_validation_exit2
      { input := "environment.yml", output := "environment.pinned.yml", env := none,
        pinPip := true, keepPythonUnpinned := false, inplace := false,
        lockLinux64 := true, lockOutput := "conda-linux-64.lock" }
      [("name", .str "health-ai")] (.ok []) (.ok "") true (.ok ())).1 (by decide)

/-- C8: with the fixed-path input data file absent, the data loader raises
before creating any output: the run ends in the raised error, so no output
directory is made and no CSV rows are written. -/
theorem read_data_missing_input_raises (resolvedDataPath : String) (cols : List String)
    (meta : ColLabels) :
    read_data_main false resolvedDataPath cols meta =
      .raised ("Missing file: " ++ resolvedDataPath) ∧
    ∀ (madeDirs : Bool) (rows : List (String × String)),
      read_data_main false resolvedDataPath cols meta ≠ .completed madeDirs rows := by
  constructor
  · rfl
  · intro b rows h
    rw [read_data_main] at h
    simp at h

/-- C8 witness: the loader's run with the input file absent, at the
repository's fixed paths and a sample column list. -/
theorem read_data_missing_input_raises_witness :
    read_data_main false "data/raw/LLCP2024.XPT" ["SEQNO"] .absent =
      .raised ("Missing file: " ++ "data/raw/LLCP2024.XPT") :=
  (read_data_missing_input_raises "data/raw/LLCP2024.XPT" ["SEQNO"] .absent).1

end AdaptiveHealth
